import Mathlib

set_option maxHeartbeats 1000000

/-!
Verification of the TeamBawllers signaling / detection server.

The development shallowly embeds the two stateful cores of
`server/main.py` and `server/models/face_detector.py`:

* the `/conference` WebSocket endpoint: a room registry
  (`meetingId -> dict of peerId -> websocket`, modelled as an
  insertion-ordered association list of peer-id lists), with the message
  handler for `join` / `offer` / `answer` / `ice-candidate` and the
  disconnect cleanup path;
* the score-smoothing pipeline of `detect_face_deepfake` (buffer append
  and eviction, median-based outlier trimming, `i ** 1.5` weighted
  average, strict 0.92 classification threshold, display confidence);
* the `/ws` frame-analysis endpoint, including a model of `json.loads`
  (a fuel-indexed JSON parser) and of `_analyze_frame_with_ai`, with the
  classifier itself abstracted as an oracle parameter.

Python dicts are modelled as association lists whose insert updates an
existing key in place and appends a fresh key at the end, matching
insertion-ordered iteration.
-/

namespace TeamBawllers

/-! ## Conference room model (`server/main.py`, `/conference` endpoint) -/

/-- The room registry: `conference_rooms : meetingId -> dict peerId -> ws`.
Only the key structure of the inner dict matters for routing, so a room is
its insertion-ordered list of member peer ids. -/
abbrev Rooms := List (String × List String)

/-- The per-connection local state of `conference_endpoint`: the `peer_id`
assigned at accept time (`secrets.token_hex(4)`) and the mutable
`meeting_id` variable. -/
structure Session where
  peerId : String
  meetingId : Option String
deriving DecidableEq, Repr

inductive RelayKind
  | offer
  | answer
  | iceCandidate
deriving DecidableEq, Repr

/-- Inbound client messages, already JSON-decoded, keyed by `type`.
`Option String` fields model `payload.get(...)` returning `None` when
absent. `other` is any unrecognized `type` (the handler ignores it). -/
inductive CMsg
  | join (meetingId : Option String)
  | relay (kind : RelayKind) (meetingId : Option String) (targetPeerId : Option String)
      (fromPeerId : Option String) (body : String)
  | other
deriving DecidableEq, Repr

/-- Where an outbound message is written: the handling session's own
socket, or the socket stored in the room under a member's peer id. -/
inductive STarget
  | sender
  | peer (pid : String)
deriving DecidableEq, Repr

/-- Outbound server messages. `relayed` is the inbound relay payload
echoed back with its `fromPeerId` field overwritten. -/
inductive SMsg
  | joined (peerId : String) (existingPeers : List String) (participantCount : Nat)
  | peerJoined (peerId : String) (participantCount : Nat)
  | relayed (kind : RelayKind) (meetingId : Option String) (targetPeerId : Option String)
      (fromPeerId : Option String) (body : String)
  | peerLeft (peerId : String) (participantCount : Nat)
  | error (message : String)
deriving DecidableEq, Repr

/-- Python truthiness of an optional string (`if not meeting_id`,
`if target_peer_id`): `None` and `""` are falsy. -/
def truthy : Option String → Bool
  | none => false
  | some s => s != ""

/-- Python dict write `d[k] = v`: update in place when the key exists,
append at the end otherwise. -/
def upsert : Rooms → String → List String → Rooms
  | [], k, v => [(k, v)]
  | (k', v') :: t, k, v => if k' = k then (k, v) :: t else (k', v') :: upsert t k v

/-- Python dict `del d[k]` (keys are unique in reachable states). -/
def removeKey : Rooms → String → Rooms
  | [], _ => []
  | (k', v') :: t, k => if k' = k then t else (k', v') :: removeKey t k

/-- Inner-dict write `conference_rooms[mid][pid] = ws` seen through the
key structure: a no-op when the peer id is already a key. -/
def memInsert (mem : List String) (p : String) : List String :=
  if p ∈ mem then mem else mem ++ [p]

structure StepResult where
  rooms : Rooms
  sess : Session
  out : List (STarget × SMsg)
deriving DecidableEq, Repr

/-- One iteration of the `conference_endpoint` receive loop on a decoded
message (lines 242-290 of `server/main.py`). -/
def conferenceStep (R : Rooms) (s : Session) : CMsg → StepResult
  | .join mid? =>
      -- meeting_id = payload.get("meetingId") happens before the check
      let s' : Session := { s with meetingId := mid? }
      if truthy mid? then
        let mid := mid?.getD ""
        -- if meeting_id not in conference_rooms: conference_rooms[meeting_id] = {}
        let R0 := if (List.lookup mid R).isNone then upsert R mid [] else R
        -- existing_peers = list(conference_rooms[meeting_id].keys())
        let existing := (List.lookup mid R0).getD []
        -- conference_rooms[meeting_id][peer_id] = ws
        let members := memInsert existing s.peerId
        let R1 := upsert R0 mid members
        ⟨R1, s',
          (.sender, .joined s.peerId existing members.length) ::
            (members.filter (fun q => q ≠ s.peerId)).map
              (fun q => (.peer q, .peerJoined s.peerId members.length))⟩
      else
        ⟨R, s', [(.sender, .error "Meeting ID required")]⟩
  | .relay k mid? tgt? from? body =>
      -- meeting_id = payload.get("meetingId") is assigned unconditionally
      let s' : Session := { s with meetingId := mid? }
      if truthy mid? then
        let mid := mid?.getD ""
        match List.lookup mid R with
        | none => ⟨R, s', []⟩
        | some mem =>
            let stamped : SMsg := .relayed k mid? tgt? (some s.peerId) body
            match tgt? with
            | some t =>
                if t ≠ "" ∧ t ∈ mem then
                  ⟨R, s', [(.peer t, stamped)]⟩
                else
                  ⟨R, s', (mem.filter (fun q => q ≠ s.peerId)).map
                    (fun q => (.peer q, stamped))⟩
            | none =>
                ⟨R, s', (mem.filter (fun q => q ≠ s.peerId)).map
                  (fun q => (.peer q, stamped))⟩
      else ⟨R, s', []⟩
  | .other => ⟨R, s, []⟩

/-- The `WebSocketDisconnect` cleanup path (lines 296-311). -/
def conferenceDisconnect (R : Rooms) (s : Session) : Rooms × List (STarget × SMsg) :=
  if truthy s.meetingId then
    let mid := s.meetingId.getD ""
    match List.lookup mid R with
    | none => (R, [])
    | some mem =>
        -- if peer_id in conference_rooms[meeting_id]: del ...
        let mem' := if s.peerId ∈ mem then mem.erase s.peerId else mem
        let R1 := upsert R mid mem'
        -- notify every remaining member with the post-removal count
        let outs := mem'.map (fun q => (.peer q, SMsg.peerLeft s.peerId mem'.length))
        -- if not conference_rooms.get(meeting_id): del conference_rooms[meeting_id]
        let R2 := if mem' = [] then removeKey R1 mid else R1
        (R2, outs)
  else (R, [])

/-- The messages written back to the handling session's own socket. -/
def senderMsgs (outs : List (STarget × SMsg)) : List SMsg :=
  (outs.filter (fun o => o.1 = .sender)).map (fun o => o.2)

/-! ### Association-list lemmas for the registry operations -/

theorem lookup_cons_eq (k : String) (v : List String) (t : Rooms) :
    List.lookup k ((k, v) :: t) = some v := by
  simp [List.lookup]

theorem lookup_cons_ne {k k₀ : String} (v : List String) (t : Rooms) (h : k ≠ k₀) :
    List.lookup k ((k₀, v) :: t) = List.lookup k t := by
  simp [List.lookup, beq_false_of_ne h]

theorem lookup_upsert_self (d : Rooms) (k : String) (v : List String) :
    List.lookup k (upsert d k v) = some v := by
  induction d with
  | nil => simp [upsert, List.lookup]
  | cons e t ih =>
      obtain ⟨k', v'⟩ := e
      by_cases h : k' = k
      · simp [upsert, h, lookup_cons_eq]
      · simp [upsert, h, lookup_cons_ne _ _ (Ne.symm h), ih]

theorem lookup_upsert_ne (d : Rooms) (k k' : String) (v : List String) (h : k' ≠ k) :
    List.lookup k' (upsert d k v) = List.lookup k' d := by
  induction d with
  | nil => simp [upsert, List.lookup, beq_false_of_ne h]
  | cons e t ih =>
    obtain ⟨k₀, v₀⟩ := e
    by_cases hk : k₀ = k
    · subst hk
      simp [upsert, lookup_cons_ne _ _ h]
    · by_cases hk' : k' = k₀
      · subst hk'
        simp [upsert, hk, lookup_cons_eq]
      · simp [upsert, hk, lookup_cons_ne _ _ hk', ih]

theorem upsert_upsert (d : Rooms) (k : String) (v w : List String) :
    upsert (upsert d k v) k w = upsert d k w := by
  induction d with
  | nil => simp [upsert]
  | cons e t ih =>
    obtain ⟨k₀, v₀⟩ := e
    by_cases hk : k₀ = k
    · simp [upsert, hk]
    · simp [upsert, hk, ih]

theorem lookup_none_cons {k k₀ : String} {v₀ : List String} {t : Rooms}
    (h : List.lookup k (((k₀, v₀)) :: t) = none) :
    k ≠ k₀ ∧ List.lookup k t = none := by
  by_cases hk : k = k₀
  · subst hk
    rw [lookup_cons_eq] at h
    exact absurd h (by simp)
  · rw [lookup_cons_ne _ _ hk] at h
    exact ⟨hk, h⟩

theorem upsert_of_lookup_none (d : Rooms) (k : String) (v : List String)
    (h : List.lookup k d = none) : upsert d k v = d ++ [(k, v)] := by
  induction d with
  | nil => simp [upsert]
  | cons e t ih =>
    obtain ⟨k₀, v₀⟩ := e
    obtain ⟨hne, ht⟩ := lookup_none_cons h
    simp [upsert, Ne.symm hne, ih ht]

theorem upsert_append_self (d : Rooms) (k : String) (v w : List String)
    (h : List.lookup k d = none) : upsert (d ++ [(k, v)]) k w = d ++ [(k, w)] := by
  induction d with
  | nil => simp [upsert]
  | cons e t ih =>
    obtain ⟨k₀, v₀⟩ := e
    obtain ⟨hne, ht⟩ := lookup_none_cons h
    simp [upsert, Ne.symm hne, ih ht]

theorem lookup_append_self (d : Rooms) (k : String) (v : List String)
    (h : List.lookup k d = none) : List.lookup k (d ++ [(k, v)]) = some v := by
  induction d with
  | nil => simp [List.lookup]
  | cons e t ih =>
    obtain ⟨k₀, v₀⟩ := e
    obtain ⟨hne, ht⟩ := lookup_none_cons h
    rw [List.cons_append, lookup_cons_ne _ _ hne, ih ht]

theorem removeKey_append_self (d : Rooms) (k : String) (v : List String)
    (h : List.lookup k d = none) : removeKey (d ++ [(k, v)]) k = d := by
  induction d with
  | nil => simp [removeKey]
  | cons e t ih =>
    obtain ⟨k₀, v₀⟩ := e
    obtain ⟨hne, ht⟩ := lookup_none_cons h
    simp [removeKey, Ne.symm hne, ih ht]

theorem mem_upsert {d : Rooms} {k : String} {v : List String} {e : String × List String}
    (h : e ∈ upsert d k v) : e = (k, v) ∨ e ∈ d := by
  induction d with
  | nil => simpa [upsert] using h
  | cons e₀ t ih =>
    obtain ⟨k₀, v₀⟩ := e₀
    by_cases hk : k₀ = k
    · rcases (by simpa [upsert, hk] using h : e = (k, v) ∨ e ∈ t) with h' | h'
      · exact Or.inl h'
      · exact Or.inr (List.mem_cons_of_mem _ h')
    · rcases (by simpa [upsert, hk] using h : e = (k₀, v₀) ∨ e ∈ upsert t k v) with h' | h'
      · exact Or.inr (by simp [h'])
      · rcases ih h' with h'' | h''
        · exact Or.inl h''
        · exact Or.inr (List.mem_cons_of_mem _ h'')

theorem mem_removeKey_upsert {d : Rooms} {k : String} {v : List String}
    {e : String × List String} (h : e ∈ removeKey (upsert d k v) k) : e ∈ d := by
  induction d with
  | nil => simp [upsert, removeKey] at h
  | cons e₀ t ih =>
    obtain ⟨k₀, v₀⟩ := e₀
    by_cases hk : k₀ = k
    · rcases e with ⟨ek, ev⟩
      simp [upsert, removeKey, hk] at h
      simp [h]
    · rcases (by simpa [upsert, removeKey, hk] using h :
          e = (k₀, v₀) ∨ e ∈ removeKey (upsert t k v) k) with h' | h'
      · simp [h']
      · exact List.mem_cons_of_mem _ (ih h')

/-! ### The join path -/

/-- A successful `join` against the snapshot/insert structure of the
handler: the `joined` reply carries the member list as it was before the
insert, and the registry afterwards holds the old members plus the
joiner, in order. -/
theorem conferenceStep_join (R : Rooms) (s : Session) (mid : String)
    (hmid : mid ≠ "") (hp : s.peerId ∉ (List.lookup mid R).getD []) :
    conferenceStep R s (.join (some mid)) =
      ⟨upsert R mid ((List.lookup mid R).getD [] ++ [s.peerId]),
       { s with meetingId := some mid },
       (.sender, .joined s.peerId ((List.lookup mid R).getD [])
           (((List.lookup mid R).getD []).length + 1)) ::
         ((((List.lookup mid R).getD []) ++ [s.peerId]).filter (fun q => q ≠ s.peerId)).map
           (fun q => (.peer q, .peerJoined s.peerId
             (((List.lookup mid R).getD []).length + 1)))⟩ := by
  cases h : List.lookup mid R with
  | none =>
      rw [h] at hp
      simp [conferenceStep, truthy, hmid, h, memInsert, upsert_upsert, lookup_upsert_self]
  | some mem =>
      rw [h] at hp
      simp only [Option.getD_some] at hp
      simp [conferenceStep, truthy, hmid, h, memInsert, hp]

/-- Sequentially process one `join` per fresh session, collecting each
session's own replies in order. -/
def joinRun (R : Rooms) (m : String) : List String → Rooms × List SMsg
  | [] => (R, [])
  | p :: ps =>
      let r := conferenceStep R ⟨p, none⟩ (.join (some m))
      let rest := joinRun r.rooms m ps
      (rest.1, senderMsgs r.out ++ rest.2)

/-- The expected `joined` replies when the room already holds `qs`. -/
def joinReplyList (qs : List String) : List String → List SMsg
  | [] => []
  | p :: ps => .joined p qs (qs.length + 1) :: joinReplyList (qs ++ [p]) ps

theorem senderMsgs_cons_peers (m : SMsg) (l : List String) (f : String → SMsg) :
    senderMsgs ((.sender, m) :: l.map (fun q => (.peer q, f q))) = [m] := by
  have hnil : (l.map (fun q => ((STarget.peer q : STarget), f q))).filter
      (fun o => o.1 = STarget.sender) = [] := by
    rw [List.filter_eq_nil_iff]
    intro a ha
    obtain ⟨q, _, rfl⟩ := List.mem_map.mp ha
    simp
  simp [senderMsgs, List.filter, hnil]

theorem joinRun_spec (m : String) (hm : m ≠ "") (ps : List String) :
    ∀ (R : Rooms) (qs : List String),
      (List.lookup m R).getD [] = qs →
      (∀ p ∈ ps, p ∉ qs) → ps.Nodup →
      (joinRun R m ps).2 = joinReplyList qs ps ∧
      (List.lookup m (joinRun R m ps).1).getD [] = qs ++ ps := by
  induction ps with
  | nil =>
      intro R qs hq _ _
      simp [joinRun, joinReplyList, hq]
  | cons p ps ih =>
      intro R qs hq hfresh hnd
      have hp : p ∉ qs := hfresh p (by simp)
      have hstep := conferenceStep_join R ⟨p, none⟩ m hm (by rw [hq]; exact hp)
      rw [List.nodup_cons] at hnd
      have hfresh' : ∀ p' ∈ ps, p' ∉ qs ++ [p] := by
        intro p' hp'
        simp only [List.mem_append, List.mem_singleton]
        rintro (h | rfl)
        · exact hfresh p' (by simp [hp']) h
        · exact hnd.1 hp'
      have hnext :
          (List.lookup m (upsert R m ((List.lookup m R).getD [] ++ [p]))).getD [] =
            qs ++ [p] := by
        rw [lookup_upsert_self, Option.getD_some, hq]
      have hrest := ih (upsert R m ((List.lookup m R).getD [] ++ [p])) (qs ++ [p])
        hnext hfresh' hnd.2
      constructor
      · show (joinRun R m (p :: ps)).2 = _
        simp only [joinRun, hstep]
        rw [senderMsgs_cons_peers, hrest.1]
        simp [joinReplyList, hq]
      · show (List.lookup m (joinRun R m (p :: ps)).1).getD [] = _
        simp only [joinRun, hstep]
        rw [hrest.2]
        simp

theorem joinReplyList_length : ∀ (ps qs : List String),
    (joinReplyList qs ps).length = ps.length := by
  intro ps
  induction ps with
  | nil => intro qs; simp [joinReplyList]
  | cons p ps ih => intro qs; simp [joinReplyList, ih]

theorem joinReplyList_getD (d : SMsg) : ∀ (ps qs : List String) (k : Nat),
    k < ps.length →
    (joinReplyList qs ps).getD k d =
      .joined (ps.getD k "") (qs ++ ps.take k) ((qs ++ ps.take k).length + 1) := by
  intro ps
  induction ps with
  | nil => intro qs k hk; simp at hk
  | cons p ps ih =>
      intro qs k hk
      cases k with
      | zero => simp [joinReplyList]
      | succ k =>
          have hk' : k < ps.length := by simpa using hk
          have := ih (qs ++ [p]) k hk'
          simp only [joinReplyList, List.getD_cons_succ, this, List.take_succ_cons,
            List.getD_cons_succ]
          simp [List.append_assoc]

theorem nodup_getD_not_mem_take : ∀ (ps : List String), ps.Nodup →
    ∀ k, k < ps.length → ps.getD k "" ∉ ps.take k := by
  intro ps
  induction ps with
  | nil => intro _ k hk; simp at hk
  | cons p t ih =>
      intro hnd k hk
      rw [List.nodup_cons] at hnd
      cases k with
      | zero => simp
      | succ k =>
          have hk' : k < t.length := by simpa using hk
          have h1 := ih hnd.2 k hk'
          have h2 : t.getD k "" ∈ t := by
            rw [List.getD_eq_getElem t "" hk']
            exact List.getElem_mem hk'
          simp only [List.getD_cons_succ, List.take_succ_cons]
          intro hmem
          rcases List.mem_cons.mp hmem with h | h
          · exact hnd.1 (h ▸ h2)
          · exact h1 h

/-- C1: starting from a registry with no room for `m`, processing a
sequence of `join m` messages from sessions with pairwise distinct peer
ids yields, for the k-th joiner (0-indexed), a `joined` reply whose
`existingPeers` is exactly the list of the k earlier joiners — the
membership strictly prior to its own insertion — so the first reply is
empty, the k-th has exactly k entries, and none of them is the joiner's
own peer id. -/
theorem join_existingPeers_snapshot (R : Rooms) (m : String) (ps : List String)
    (hm : m ≠ "") (hfresh : List.lookup m R = none) (hnd : ps.Nodup) :
    (joinRun R m ps).2.length = ps.length ∧
    ∀ k, k < ps.length →
      (joinRun R m ps).2.getD k (.error "") =
        .joined (ps.getD k "") (ps.take k) ((ps.take k).length + 1) ∧
      (ps.take k).length = k ∧
      ps.getD k "" ∉ ps.take k := by
  have hq : (List.lookup m R).getD [] = ([] : List String) := by rw [hfresh]; rfl
  have hspec := joinRun_spec m hm ps R [] hq (by simp) hnd
  constructor
  · rw [hspec.1, joinReplyList_length]
  · intro k hk
    refine ⟨?_, ?_, nodup_getD_not_mem_take ps hnd k hk⟩
    · rw [hspec.1, joinReplyList_getD (.error "") ps [] k hk]
      simp
    · simp [List.length_take, Nat.min_eq_left (Nat.le_of_lt hk)]

/-- Witness for C1 at a concrete two-join run. -/
theorem join_existingPeers_snapshot_witness :
    (joinRun [] "m1" ["aaaa", "bbbb"]).2.getD 1 (.error "") =
      .joined "bbbb" ["aaaa"] 2 ∧ ("bbbb" : String) ∉ ["aaaa"] := by
  have h := join_existingPeers_snapshot [] "m1" ["aaaa", "bbbb"]
    (by decide) rfl (by decide)
  have h1 := h.2 1 (by decide)
  exact ⟨by simpa using h1.1, h1.2.2⟩

/-- C9: a `join` whose `meetingId` is absent or empty gets an `error`
reply addressed to the sender only; the registry (and hence every room's
membership) is untouched, and the receive loop continues with the next
message (the handler returns a successor state rather than closing the
connection). -/
theorem join_missing_meetingId (R : Rooms) (s : Session) (mid? : Option String)
    (h : mid? = none ∨ mid? = some "") :
    conferenceStep R s (.join mid?) =
      ⟨R, { s with meetingId := mid? }, [(.sender, .error "Meeting ID required")]⟩ := by
  rcases h with h | h <;> subst h <;> simp [conferenceStep, truthy]

/-- Witness for C9 on a concrete registry. -/
theorem join_missing_meetingId_witness :
    conferenceStep [("m", ["aaaa"])] ⟨"pppp", some "m"⟩ (.join none) =
      ⟨[("m", ["aaaa"])], ⟨"pppp", none⟩, [(.sender, .error "Meeting ID required")]⟩ :=
  join_missing_meetingId _ _ _ (Or.inl rfl)

/-! ### Relay routing (C2) -/

/-- A relay message never changes the registry, whatever its fields. -/
theorem conferenceStep_relay_rooms (R : Rooms) (s : Session) (k : RelayKind)
    (mid? tgt? from? : Option String) (body : String) :
    (conferenceStep R s (.relay k mid? tgt? from? body)).rooms = R := by
  unfold conferenceStep
  by_cases htr : truthy mid?
  · simp only [htr, if_true]
    cases hl : List.lookup (mid?.getD "") R with
    | none => rfl
    | some mem =>
        cases tgt? with
        | none => rfl
        | some t =>
            by_cases ht : t ≠ "" ∧ t ∈ mem
            · simp only [if_pos ht]
            · simp only [if_neg ht]
  · simp [htr]

/-- C2: an `offer` / `answer` / `ice-candidate` naming an existing room
is delivered to exactly the targeted member when `targetPeerId` names a
current member, and to every member except the sender when it is absent
or names no current member; each delivered copy is the payload with
`fromPeerId` stamped to the sender's actual peer id, whatever
`fromPeerId` the caller supplied. The hypothesis `"" ∉ mem` reflects
that member ids are generated by `secrets.token_hex(4)` and are never
empty (Python truthiness would treat an empty target as absent). -/
theorem relay_routing (R : Rooms) (s : Session) (k : RelayKind) (mid : String)
    (tgt? from? : Option String) (body : String) (mem : List String)
    (hmem : List.lookup mid R = some mem) (hmid : mid ≠ "") (hids : "" ∉ mem) :
    (conferenceStep R s (.relay k (some mid) tgt? from? body)).rooms = R ∧
    (∀ t, tgt? = some t → t ∈ mem →
      (conferenceStep R s (.relay k (some mid) tgt? from? body)).out =
        [(.peer t, .relayed k (some mid) tgt? (some s.peerId) body)]) ∧
    ((∀ t, tgt? = some t → t ∉ mem) →
      (conferenceStep R s (.relay k (some mid) tgt? from? body)).out =
        (mem.filter (fun q => q ≠ s.peerId)).map
          (fun q => (.peer q, .relayed k (some mid) tgt? (some s.peerId) body))) := by
  refine ⟨conferenceStep_relay_rooms R s k (some mid) tgt? from? body, ?_, ?_⟩
  · rintro t rfl htmem
    have htne : t ≠ "" := fun h => hids (h ▸ htmem)
    simp [conferenceStep, truthy, hmid, hmem, htne, htmem]
  · intro hnot
    cases tgt? with
    | none => simp [conferenceStep, truthy, hmid, hmem]
    | some t =>
        have : ¬(t ≠ "" ∧ t ∈ mem) := fun h => hnot t rfl h.2
        simp [conferenceStep, truthy, hmid, hmem, this]

/-- Witness for C2: in room `m` with members `a, b, c`, sender `a`
relaying with target `b` and a forged `fromPeerId` `"zzzz"` delivers one
copy, to `b`, stamped `fromPeerId = "aaaa"`. -/
theorem relay_routing_witness :
    (conferenceStep [("m", ["aaaa", "bbbb", "cccc"])] ⟨"aaaa", none⟩
        (.relay .offer (some "m") (some "bbbb") (some "zzzz") "sdp")).out =
      [(.peer "bbbb", .relayed .offer (some "m") (some "bbbb") (some "aaaa") "sdp")] :=
  (relay_routing [("m", ["aaaa", "bbbb", "cccc"])] ⟨"aaaa", none⟩ .offer "m"
      (some "bbbb") (some "zzzz") "sdp" ["aaaa", "bbbb", "cccc"]
      rfl (by decide) (by decide)).2.1 "bbbb" rfl (by decide)

/-! ### Registry invariant and the join/leave round trip (C3) -/

/-- An operation against the room registry: one decoded message handled
by some session, or a transport disconnect of some session. -/
inductive Op
  | msg (s : Session) (m : CMsg)
  | disc (s : Session)

def applyOp (R : Rooms) : Op → Rooms
  | .msg s m => (conferenceStep R s m).rooms
  | .disc s => (conferenceDisconnect R s).1

def runOps (R : Rooms) (ops : List Op) : Rooms := ops.foldl applyOp R

/-- No room in the registry has zero members. -/
def noEmptyRooms (R : Rooms) : Prop := ∀ e ∈ R, e.2 ≠ []

theorem memInsert_ne_nil (mem : List String) (p : String) : memInsert mem p ≠ [] := by
  unfold memInsert
  by_cases h : p ∈ mem
  · simp only [if_pos h]
    rintro rfl
    exact (List.not_mem_nil p) h
  · simp [if_neg h]

theorem noEmptyRooms_step (R : Rooms) (s : Session) (m : CMsg)
    (hR : noEmptyRooms R) : noEmptyRooms (conferenceStep R s m).rooms := by
  cases m with
  | join mid? =>
      by_cases htr : truthy mid?
      · by_cases hl : (List.lookup (mid?.getD "") R).isNone
        · have hnone : List.lookup (mid?.getD "") R = none := by
            cases h : List.lookup (mid?.getD "") R with
            | none => rfl
            | some v => rw [h] at hl; simp at hl
          have hrooms : (conferenceStep R s (.join mid?)).rooms =
              R ++ [(mid?.getD "", memInsert [] s.peerId)] := by
            simp only [conferenceStep, htr, if_true, if_pos hl]
            rw [lookup_upsert_self]
            simp only [Option.getD_some]
            rw [upsert_upsert, upsert_of_lookup_none R _ _ hnone]
          rw [hrooms]
          intro e he
          rcases List.mem_append.mp he with h | h
          · exact hR e h
          · have : e = (mid?.getD "", memInsert [] s.peerId) := by simpa using h
            rw [this]
            exact memInsert_ne_nil [] s.peerId
        · have hrooms : (conferenceStep R s (.join mid?)).rooms =
              upsert R (mid?.getD "")
                (memInsert ((List.lookup (mid?.getD "") R).getD []) s.peerId) := by
            simp only [conferenceStep, htr, if_true, if_neg hl]
          rw [hrooms]
          intro e he
          rcases mem_upsert he with h | h
          · rw [h]; exact memInsert_ne_nil _ s.peerId
          · exact hR e h
      · simp only [conferenceStep, htr, if_false]
        exact hR
  | relay k mid? tgt? from? body =>
      rw [conferenceStep_relay_rooms]
      exact hR
  | other =>
      simp only [conferenceStep]
      exact hR

theorem noEmptyRooms_disconnect (R : Rooms) (s : Session)
    (hR : noEmptyRooms R) : noEmptyRooms (conferenceDisconnect R s).1 := by
  intro e he
  unfold conferenceDisconnect at he
  by_cases htr : truthy s.meetingId
  · rw [if_pos htr] at he
    dsimp only at he
    cases hl : List.lookup (s.meetingId.getD "") R with
    | none => rw [hl] at he; exact hR e he
    | some mem =>
        rw [hl] at he
        dsimp only at he
        by_cases hnil :
            (if s.peerId ∈ mem then mem.erase s.peerId else mem) = []
        · rw [if_pos hnil] at he
          exact hR e (mem_removeKey_upsert he)
        · rw [if_neg hnil] at he
          rcases mem_upsert he with h | h
          · rw [h]; exact hnil
          · exact hR e h
  · rw [if_neg htr] at he
    exact hR e he

theorem noEmptyRooms_runOps (ops : List Op) : ∀ (R : Rooms),
    noEmptyRooms R → noEmptyRooms (runOps R ops) := by
  induction ops with
  | nil => intro R hR; exact hR
  | cons op ops ih =>
      intro R hR
      show noEmptyRooms (runOps (applyOp R op) ops)
      refine ih _ ?_
      cases op with
      | msg s m => exact noEmptyRooms_step R s m hR
      | disc s => exact noEmptyRooms_disconnect R s hR

/-- C3: (a) every sequence of handled messages and disconnects preserves
"no zero-member room is registered"; (b) a `join` to a meeting with no
registry entry followed by that same session's disconnect returns the
registry to exactly its prior state. -/
theorem registry_no_empty_rooms (R : Rooms) (ops : List Op) (hR : noEmptyRooms R)
    (m : String) (s : Session) (hm : m ≠ "") (hfresh : List.lookup m R = none) :
    noEmptyRooms (runOps R ops) ∧
    (conferenceDisconnect (conferenceStep R s (.join (some m))).rooms
        (conferenceStep R s (.join (some m))).sess).1 = R := by
  refine ⟨noEmptyRooms_runOps ops R hR, ?_⟩
  have hstep := conferenceStep_join R s m hm (by rw [hfresh]; exact List.not_mem_nil _)
  rw [hstep]
  simp only [hfresh, Option.getD_none, List.nil_append]
  rw [upsert_of_lookup_none R m [s.peerId] hfresh]
  show (conferenceDisconnect (R ++ [(m, [s.peerId])]) { s with meetingId := some m }).1 = R
  unfold conferenceDisconnect
  have htr : truthy (some m) = true := by simp [truthy, hm]
  rw [if_pos htr]
  simp only [Option.getD_some]
  rw [lookup_append_self R m [s.peerId] hfresh]
  dsimp only
  have h1 : (if s.peerId ∈ [s.peerId] then [s.peerId].erase s.peerId else [s.peerId]) =
      ([] : List String) := by simp
  rw [h1, if_pos rfl, upsert_append_self R m [s.peerId] [] hfresh,
    removeKey_append_self R m [] hfresh]

/-- Witness for C3 on a concrete trace. -/
theorem registry_no_empty_rooms_witness :
    noEmptyRooms (runOps [] [.msg ⟨"aaaa", none⟩ (.join (some "x")),
      .disc ⟨"aaaa", some "x"⟩]) ∧
    (conferenceDisconnect (conferenceStep [] ⟨"pppp", none⟩ (.join (some "m1"))).rooms
        (conferenceStep [] ⟨"pppp", none⟩ (.join (some "m1"))).sess).1 = [] :=
  registry_no_empty_rooms [] [.msg ⟨"aaaa", none⟩ (.join (some "x")),
      .disc ⟨"aaaa", some "x"⟩]
    (by intro e he; exact absurd he (List.not_mem_nil e))
    "m1" ⟨"pppp", none⟩ (by decide) rfl

/-! ### Multi-room membership (C4) -/

/-- C4 fails on the code: a session that sends `join m1` and then
`join m2` ends up registered as a member of both rooms — the `join`
handler never removes the session from its previous room, and the
disconnect path later cleans up only the current `meeting_id`. This
theorem evaluates the handler on that failing input: after the two
joins, peer `"p1aa"` is a member of `"m1"` and of `"m2"`. -/
theorem second_join_leaves_two_memberships :
    List.lookup "m1"
        (conferenceStep (conferenceStep [] ⟨"p1aa", none⟩ (.join (some "m1"))).rooms
          (conferenceStep [] ⟨"p1aa", none⟩ (.join (some "m1"))).sess
          (.join (some "m2"))).rooms = some ["p1aa"] ∧
    List.lookup "m2"
        (conferenceStep (conferenceStep [] ⟨"p1aa", none⟩ (.join (some "m1"))).rooms
          (conferenceStep [] ⟨"p1aa", none⟩ (.join (some "m1"))).sess
          (.join (some "m2"))).rooms = some ["p1aa"] := by
  decide

/-! ## Score smoother (`server/models/face_detector.py`)

The per-frame classifier, the OpenCV face cascades and the image
decoding are external collaborators; the smoother below is the exact
buffer/trim/weight/classify pipeline of `detect_face_deepfake`
(lines 229-272), with the raw model prediction abstracted as an input.
Scores are embedded as exact numbers: rationals where the claims need
evaluation, reals where the `i ** 1.5` weights force irrational values.
-/

def BUFFER_SIZE : Nat := 25

/-- `OUTLIER_THRESHOLD = 0.12`, exactly. -/
def OUTLIER_THRESHOLD {α : Type} [LinearOrderedField α] : α := 12 / 100

/-- `sorted(scores)[len(scores) // 2]`: the element at index `⌊n/2⌋` of
the ascending sort (for odd lengths this is the median; for even
lengths the upper of the two central elements). -/
def medianOf {α : Type} [LinearOrderedField α] (scores : List α) : α :=
  (List.insertionSort (· ≤ ·) scores).getD (scores.length / 2) 0

/-- Outlier removal of `detect_face_deepfake` (lines 238-244): for a
history of at least 5 scores, keep the entries within strictly less
than `OUTLIER_THRESHOLD` of the median, falling back to the whole
buffer when nothing survives; shorter histories are untouched. -/
def trimOutliers {α : Type} [LinearOrderedField α] (buf : List α) : List α :=
  if 5 ≤ buf.length then
    let median_score := medianOf buf
    let scores := buf.filter (fun s => |s - median_score| < OUTLIER_THRESHOLD)
    if scores.length = 0 then buf else scores
  else buf

/-- C5 counterexample: with history `[0.5, 0.5, 0.5, 0.5, 0.62]` the
median is `0.5` and the deviation of `0.62` is exactly `0.12`, which
does not *exceed* the threshold — yet the code discards it (the keep
condition is strict `<`). The claim's reading (discard only deviations
`> 0.12`) predicts the full history survives. -/
theorem trim_outliers_boundary_cex :
    trimOutliers [(1 : ℚ)/2, 1/2, 1/2, 1/2, 31/50] = [1/2, 1/2, 1/2, 1/2] ∧
    List.filter
        (fun s => |s - medianOf [(1 : ℚ)/2, 1/2, 1/2, 1/2, 31/50]| ≤ OUTLIER_THRESHOLD)
        [(1 : ℚ)/2, 1/2, 1/2, 1/2, 31/50] =
      [(1 : ℚ)/2, 1/2, 1/2, 1/2, 31/50] := by
  constructor <;>
    norm_num [trimOutliers, medianOf, List.insertionSort, List.orderedInsert,
      List.filter, OUTLIER_THRESHOLD, abs_of_nonneg, abs_of_nonpos]

/-- C5 (amended): for histories of length ≥ 5 the smoother discards
exactly the entries whose absolute deviation from
`sorted(history)[n/2]` is at least `OUTLIER_THRESHOLD` (keeping the
strictly-closer ones, order preserved), falls back to the full history
when nothing survives, and leaves histories of fewer than 5 entries
untrimmed. -/
theorem trim_outliers_spec (buf : List ℚ) :
    List.Sublist (trimOutliers buf) buf ∧
    (buf.length < 5 → trimOutliers buf = buf) ∧
    (5 ≤ buf.length →
      (buf.filter (fun s => |s - medianOf buf| < OUTLIER_THRESHOLD) ≠ [] →
        trimOutliers buf = buf.filter (fun s => |s - medianOf buf| < OUTLIER_THRESHOLD)) ∧
      (buf.filter (fun s => |s - medianOf buf| < OUTLIER_THRESHOLD) = [] →
        trimOutliers buf = buf)) := by
  by_cases h5 : 5 ≤ buf.length
  · by_cases hf : (buf.filter (fun s => |s - medianOf buf| < OUTLIER_THRESHOLD)).length = 0
    · have hnil : buf.filter (fun s => |s - medianOf buf| < OUTLIER_THRESHOLD) = [] :=
        List.length_eq_zero.mp hf
      have htrim : trimOutliers buf = buf := by
        unfold trimOutliers
        rw [if_pos h5]
        dsimp only
        rw [if_pos hf]
      refine ⟨by rw [htrim], fun h => absurd h5 (by omega), fun _ => ?_⟩
      exact ⟨fun hne => absurd hnil hne, fun _ => htrim⟩
    · have htrim : trimOutliers buf =
          buf.filter (fun s => |s - medianOf buf| < OUTLIER_THRESHOLD) := by
        unfold trimOutliers
        rw [if_pos h5]
        dsimp only
        rw [if_neg hf]
      refine ⟨by rw [htrim]; exact List.filter_sublist buf, fun h => absurd h5 (by omega),
        fun _ => ?_⟩
      exact ⟨fun _ => htrim, fun hnil => absurd (List.length_eq_zero.mpr hnil) hf⟩
  · have htrim : trimOutliers buf = buf := by
      unfold trimOutliers
      rw [if_neg h5]
    exact ⟨by rw [htrim], fun _ => htrim, fun h => absurd h h5⟩

/-- Witness for the amended C5: a history with one genuine outlier. -/
theorem trim_outliers_spec_witness :
    trimOutliers [(1 : ℚ)/2, 1/2, 1/2, 1/2, 9/10] = [1/2, 1/2, 1/2, 1/2] := by
  have hfil : List.filter
      (fun s => |s - medianOf [(1 : ℚ)/2, 1/2, 1/2, 1/2, 9/10]| < OUTLIER_THRESHOLD)
      [(1 : ℚ)/2, 1/2, 1/2, 1/2, 9/10] = [1/2, 1/2, 1/2, 1/2] := by
    norm_num [medianOf, List.insertionSort, List.orderedInsert, List.filter,
      OUTLIER_THRESHOLD, abs_of_nonneg, abs_of_nonpos]
  have h := ((trim_outliers_spec [(1 : ℚ)/2, 1/2, 1/2, 1/2, 9/10]).2.2
    (by norm_num)).1
    (by rw [hfil]; exact List.cons_ne_nil _ _)
  rw [h]
  exact hfil

/-! ### Weighted average, classification and display (lines 246-265) -/

/-- `DEEPFAKE_STRICTNESS = 0.92`, exactly. -/
noncomputable def DEEPFAKE_STRICTNESS : ℝ := 92 / 100

/-- `weights = [i ** 1.5 for i in range(1, len(scores) + 1)]`. -/
noncomputable def scoreWeights (n : Nat) : List ℝ :=
  (List.range n).map (fun i => ((i + 1 : ℕ) : ℝ) ^ (1.5 : ℝ))

/-- `weighted_sum = sum(s * w for s, w in zip(scores, weights))`. -/
noncomputable def weighted_sum (scores : List ℝ) : ℝ :=
  ((scores.zip (scoreWeights scores.length)).map (fun p => p.1 * p.2)).sum

/-- `total_weight = sum(weights)`. -/
noncomputable def total_weight (scores : List ℝ) : ℝ :=
  (scoreWeights scores.length).sum

/-- `avg_score = weighted_sum / total_weight`. -/
noncomputable def avg_score (scores : List ℝ) : ℝ :=
  weighted_sum scores / total_weight scores

/-- `is_fake = bool(avg_score >= DEEPFAKE_STRICTNESS)`. -/
def smoother_is_fake (scores : List ℝ) : Prop :=
  DEEPFAKE_STRICTNESS ≤ avg_score scores

/-- `display_confidence = min(0.99, avg_score)` when fake, else
`min(0.99, 1.0 - avg_score)`. -/
noncomputable def display_confidence (scores : List ℝ) : ℝ :=
  if DEEPFAKE_STRICTNESS ≤ avg_score scores then min (99 / 100) (avg_score scores)
  else min (99 / 100) (1 - avg_score scores)

theorem range_map_sum (f : ℕ → ℝ) (n : ℕ) :
    ((List.range n).map f).sum = ∑ i in Finset.range n, f i := by
  induction n with
  | zero => simp
  | succ n ih =>
      rw [List.range_succ, List.map_append, List.sum_append, Finset.sum_range_succ, ih]
      simp

theorem zip_range_map_sum : ∀ (l : List ℝ) (f : ℕ → ℝ),
    ((l.zip ((List.range l.length).map f)).map (fun p => p.1 * p.2)).sum =
      ∑ i in Finset.range l.length, l.getD i 0 * f i := by
  intro l
  induction l with
  | nil => intro f; simp
  | cons a t ih =>
      intro f
      rw [List.length_cons, List.range_succ_eq_map]
      simp only [List.map_cons, List.map_map, List.zip_cons_cons, List.sum_cons]
      rw [Finset.sum_range_succ']
      have := ih (fun i => f (i + 1))
      simp only [Function.comp_def, Nat.succ_eq_add_one] at *
      rw [this]
      simp [add_comm]

/-- C6: on a non-empty surviving score list, the smoother's average is
the weighted mean with weight `(i+1) ** 1.5` on the score at 0-based
index `i` (so the i-th oldest, 1-indexed, gets weight `i ** 1.5`); the
fake verdict is exactly `avg_score ≥ 0.92`; and the displayed
confidence is `min(0.99, avg_score)` for a fake verdict and
`min(0.99, 1 - avg_score)` for a genuine one. -/
theorem weighted_smoother_spec (scores : List ℝ) (hne : scores ≠ []) :
    avg_score scores =
      (∑ i in Finset.range scores.length,
          scores.getD i 0 * ((i + 1 : ℕ) : ℝ) ^ (1.5 : ℝ)) /
        (∑ i in Finset.range scores.length, ((i + 1 : ℕ) : ℝ) ^ (1.5 : ℝ)) ∧
    (smoother_is_fake scores ↔ avg_score scores ≥ 92 / 100) ∧
    (smoother_is_fake scores →
      display_confidence scores = min (99 / 100) (avg_score scores)) ∧
    (¬smoother_is_fake scores →
      display_confidence scores = min (99 / 100) (1 - avg_score scores)) := by
  refine ⟨?_, ?_, ?_, ?_⟩
  · unfold avg_score weighted_sum total_weight scoreWeights
    rw [zip_range_map_sum scores (fun i => ((i + 1 : ℕ) : ℝ) ^ (1.5 : ℝ)),
      range_map_sum (fun i => ((i + 1 : ℕ) : ℝ) ^ (1.5 : ℝ)) scores.length]
  · rw [smoother_is_fake, DEEPFAKE_STRICTNESS, ge_iff_le]
  · intro h
    rw [smoother_is_fake] at h
    simp [display_confidence, h]
  · intro h
    rw [smoother_is_fake] at h
    simp [display_confidence, h]

/-- Witness for C6 at the singleton score list `[1]`. -/
theorem weighted_smoother_spec_witness :
    avg_score [(1 : ℝ)] =
      (∑ i in Finset.range (List.length [(1 : ℝ)]),
          (List.getD [(1 : ℝ)] i 0) * ((i + 1 : ℕ) : ℝ) ^ (1.5 : ℝ)) /
        (∑ i in Finset.range (List.length [(1 : ℝ)]), ((i + 1 : ℕ) : ℝ) ^ (1.5 : ℝ)) :=
  (weighted_smoother_spec [(1 : ℝ)] (by simp)).1

/-! ### The detection wrapper and its no-content path (C8) -/

/-- The result record of `detect_face_deepfake`. The classification is
a proposition on exact reals; the human-readable message elides the
percentage formatting of the source's f-strings. -/
structure FaceDetectionResult where
  is_fake : Prop
  confidence : ℝ
  message : String
  face_detected : Bool

/-- Outcome of the external imaging/classifier collaborator for one
frame: either one of the early no-content returns (undecodable image,
no face found, face too small, empty region) with its message, or the
raw model prediction for the largest detected face. -/
inductive ScoreOutcome
  | noContent (message : String)
  | score (p : ℝ)

/-- `_score_buffers`: a total map from source name to its history
(absent keys read as the empty history, matching lazy initialization). -/
abbrev ScoreBuffers := String → List ℝ

/-- `detect_face_deepfake` (lines 116-272) with the imaging pipeline
abstracted: on no content, return the fail-open result without touching
any buffer; on a prediction, append it to the source's buffer, evict
the oldest entry past `BUFFER_SIZE`, trim outliers, and classify by the
weighted average. -/
noncomputable def detect_face_deepfake (outcome : ScoreOutcome) (source : String)
    (bufs : ScoreBuffers) : FaceDetectionResult × ScoreBuffers :=
  match outcome with
  | .noContent msg => (⟨False, 0, msg, false⟩, bufs)
  | .score p =>
      let buf1 := bufs source ++ [p]
      let buf2 := if BUFFER_SIZE < buf1.length then buf1.tail else buf1
      let scores := trimOutliers buf2
      (⟨smoother_is_fake scores, display_confidence scores,
        (if DEEPFAKE_STRICTNESS ≤ avg_score scores then "DEEPFAKE DETECTED"
         else "GENUINE FACE"),
        true⟩,
       fun src => if src = source then buf2 else bufs src)

/-- C8: when the collaborator reports no face, the emitted result
carries `face_detected = false`, zero confidence and the collaborator's
message, and the score history of every source is exactly what it was
(the smoother state advances only on detected content). -/
theorem no_face_leaves_smoother_untouched (msg source : String) (bufs : ScoreBuffers) :
    (detect_face_deepfake (.noContent msg) source bufs).1.face_detected = false ∧
    (detect_face_deepfake (.noContent msg) source bufs).1.confidence = 0 ∧
    (detect_face_deepfake (.noContent msg) source bufs).1.message = msg ∧
    ∀ src, (detect_face_deepfake (.noContent msg) source bufs).2 src = bufs src :=
  ⟨rfl, rfl, rfl, fun _ => rfl⟩

/-! ## Frame-analysis endpoint (`/ws`, `server/main.py` lines 166-222)

`json.loads` is modelled by a fuel-indexed parser of the JSON grammar
(whitespace, literals, numbers, strings with escapes, arrays, objects,
plus the non-standard `NaN` / `Infinity` the Python decoder accepts).
Numbers are kept as their raw text — the endpoint never computes with
them. The classifier behind `detect_face_from_base64` is abstracted as
an oracle `detect` threading an opaque state. -/

inductive Json
  | null
  | bool (b : Bool)
  | num (raw : String)
  | str (s : String)
  | arr (xs : List Json)
  | obj (fields : List (String × Json))

def skipWs : List Char → List Char
  | c :: t => if c = ' ' ∨ c = '\t' ∨ c = '\n' ∨ c = '\r' then skipWs t else c :: t
  | [] => []

def isHexDigitChar (c : Char) : Bool :=
  c.isDigit ∨ ('a' ≤ c ∧ c ≤ 'f') ∨ ('A' ≤ c ∧ c ≤ 'F')

def escChar : Char → Char
  | 'b' => '\x08'
  | 'f' => '\x0c'
  | 'n' => '\n'
  | 'r' => '\r'
  | 't' => '\t'
  | c => c

/-- Parse a JSON string body after its opening quote, returning the
decoded characters and the remainder after the closing quote (a `\u`
escape decodes to a placeholder character; no claim depends on it). -/
def parseStringBody : List Char → Option (List Char × List Char)
  | [] => none
  | '"' :: rest => some ([], rest)
  | '\\' :: 'u' :: a :: b :: c :: d :: rest =>
      if isHexDigitChar a ∧ isHexDigitChar b ∧ isHexDigitChar c ∧ isHexDigitChar d then
        (parseStringBody rest).map (fun r => ('?' :: r.1, r.2))
      else none
  | '\\' :: e :: rest =>
      if e = '"' ∨ e = '\\' ∨ e = '/' ∨ e = 'b' ∨ e = 'f' ∨ e = 'n' ∨ e = 'r' ∨ e = 't' then
        (parseStringBody rest).map (fun r => (escChar e :: r.1, r.2))
      else none
  | c :: rest =>
      if c.val < 32 then none
      else (parseStringBody rest).map (fun r => (c :: r.1, r.2))

def parseDigits : List Char → List Char × List Char
  | c :: t =>
      if c.isDigit then
        let r := parseDigits t
        (c :: r.1, r.2)
      else ([], c :: t)
  | [] => ([], [])

def parseFrac : List Char → Option (List Char × List Char)
  | '.' :: t =>
      let r := parseDigits t
      if r.1 = [] then none else some ('.' :: r.1, r.2)
  | l => some ([], l)

def parseExp : List Char → Option (List Char × List Char)
  | c :: t =>
      if c = 'e' ∨ c = 'E' then
        match t with
        | s :: t2 =>
            if s = '+' ∨ s = '-' then
              let r := parseDigits t2
              if r.1 = [] then none else some (c :: s :: r.1, r.2)
            else
              let r := parseDigits t
              if r.1 = [] then none else some (c :: r.1, r.2)
        | [] => none
      else some ([], c :: t)
  | [] => some ([], [])

/-- JSON number grammar: `-? (0 | [1-9][0-9]*) frac? exp?`. -/
def parseNumber (l : List Char) : Option (Json × List Char) :=
  let sl : List Char × List Char :=
    match l with
    | '-' :: t => (['-'], t)
    | _ => ([], l)
  match sl.2 with
  | c :: t =>
      if c = '0' then
        match parseFrac t with
        | none => none
        | some (fp, l2) =>
            match parseExp l2 with
            | none => none
            | some (ep, l3) => some (.num (String.mk (sl.1 ++ [c] ++ fp ++ ep)), l3)
      else if c.isDigit then
        let r := parseDigits t
        match parseFrac r.2 with
        | none => none
        | some (fp, l2) =>
            match parseExp l2 with
            | none => none
            | some (ep, l3) =>
                some (.num (String.mk (sl.1 ++ (c :: r.1) ++ fp ++ ep)), l3)
      else none
  | [] => none

mutual

def parseValue : Nat → List Char → Option (Json × List Char)
  | 0, _ => none
  | fuel + 1, l =>
      match skipWs l with
      | 'n' :: 'u' :: 'l' :: 'l' :: r => some (.null, r)
      | 't' :: 'r' :: 'u' :: 'e' :: r => some (.bool true, r)
      | 'f' :: 'a' :: 'l' :: 's' :: 'e' :: r => some (.bool false, r)
      | 'N' :: 'a' :: 'N' :: r => some (.num "NaN", r)
      | 'I' :: 'n' :: 'f' :: 'i' :: 'n' :: 'i' :: 't' :: 'y' :: r =>
          some (.num "Infinity", r)
      | '-' :: 'I' :: 'n' :: 'f' :: 'i' :: 'n' :: 'i' :: 't' :: 'y' :: r =>
          some (.num "-Infinity", r)
      | '"' :: r => (parseStringBody r).map (fun p => (.str (String.mk p.1), p.2))
      | '\x5b' :: r => parseArrayItems fuel r true
      | '\x7b' :: r => parseObjItems fuel r true
      | l' => parseNumber l'

def parseArrayItems : Nat → List Char → Bool → Option (Json × List Char)
  | 0, _, _ => none
  | fuel + 1, l, first =>
      match hw : skipWs l with
      | '\x5d' :: r => if first then some (.arr [], r) else none
      | l' =>
          match parseValue fuel l' with
          | none => none
          | some (v, r) =>
              match skipWs r with
              | ',' :: r2 =>
                  match parseArrayItems fuel r2 false with
                  | some (.arr vs, r3) => some (.arr (v :: vs), r3)
                  | _ => none
              | '\x5d' :: r2 => some (.arr [v], r2)
              | _ => none

def parseObjItems : Nat → List Char → Bool → Option (Json × List Char)
  | 0, _, _ => none
  | fuel + 1, l, first =>
      match skipWs l with
      | '\x7d' :: r => if first then some (.obj [], r) else none
      | '"' :: r =>
          match parseStringBody r with
          | none => none
          | some (key, r1) =>
              match skipWs r1 with
              | ':' :: r2 =>
                  match parseValue fuel (skipWs r2) with
                  | none => none
                  | some (v, r3) =>
                      match skipWs r3 with
                      | ',' :: r4 =>
                          match parseObjItems fuel r4 false with
                          | some (.obj fs, r5) =>
                              some (.obj ((String.mk key, v) :: fs), r5)
                          | _ => none
                      | '\x7d' :: r4 => some (.obj [(String.mk key, v)], r4)
                      | _ => none
              | _ => none
      | _ => none

end

/-- Model of `json.loads(data)`: parse one value and require only
trailing whitespace after it; `none` is a raised `JSONDecodeError`. -/
def jsonParse (s : String) : Option Json :=
  match parseValue (2 * s.length + 2) s.toList with
  | some (v, rest) => if skipWs rest = [] then some v else none
  | none => none

/-- Python truthiness of a decoded JSON value (`frame or ""`). A number
is falsy exactly when its mantissa digits are all zero. -/
def jsonFalsy : Json → Bool
  | .null => true
  | .bool b => !b
  | .num raw => (raw.toList.filter (fun c => c.isDigit)).all (fun c => c = '0')
  | .str s => s == ""
  | .arr xs => xs.isEmpty
  | .obj fs => fs.isEmpty

/-- `payload.get(k)`: `json.loads` keeps the last duplicate key. -/
def objGet (fields : List (String × Json)) (k : String) : Option Json :=
  List.lookup k fields.reverse

/-- The `FaceDetectionResult` shape as seen by the endpoint, with the
confidence as an exact rational. -/
structure WsFaceResult where
  is_fake : Bool
  confidence : ℚ
  message : String
  face_detected : Bool

structure AnalyzeOut where
  is_fake : Bool
  confidence : ℚ
  alert_msg : String
  face_detected : Bool
deriving DecidableEq

/-- `round(x, 3)`; Python rounds half to even, which differs only at
exact `0.0005` ties that no claim exercises. -/
def round3 (q : ℚ) : ℚ := (⌊q * 1000 + 1 / 2⌋ : ℚ) / 1000

/-- `_analyze_frame_with_ai` (lines 166-200): short or empty frames
short-circuit before the classifier; a no-face result is demoted to the
fail-open verdict; otherwise the classifier verdict is passed through
with its confidence rounded. -/
def analyzeFrameWithAI {σ : Type} (detect : String → σ → WsFaceResult × σ)
    (frame : String) (st : σ) : AnalyzeOut × σ :=
  if frame = "" ∨ frame.length < 100 then
    (⟨false, 0, "Invalid frame data", false⟩, st)
  else
    let r := detect frame st
    if r.1.face_detected = false then
      (⟨false, 0, r.1.message, false⟩, r.2)
    else
      (⟨r.1.is_fake, round3 r.1.confidence, r.1.message, true⟩, r.2)

/-- One outbound reply of the `/ws` endpoint. The bad-payload reply is
sent without `face_detected` and without `timestamp` (line 213); the
analysis replies carry both (lines 217-219). -/
structure WsVerdict where
  is_fake : Bool
  confidence : ℚ
  alert_msg : String
  face_detected : Option Bool
  timestamp : Option String
deriving DecidableEq

/-- Result of one `/ws` loop iteration: a JSON reply, or an uncaught
exception that ends the connection task (`payload.get` on a non-dict
raises `AttributeError`, which line 212 does not catch). -/
inductive WsOut
  | reply (v : WsVerdict)
  | crash
deriving DecidableEq

/-- One iteration of the `/ws` receive loop on an inbound text frame
(lines 207-219): decode, extract `frame`, analyze, attach timestamp. -/
def wsStep {σ : Type} (detect : String → σ → WsFaceResult × σ) (now : String)
    (data : String) (st : σ) : WsOut × σ :=
  match jsonParse data with
  | none => (.reply ⟨true, 99 / 100, "Bad payload", none, none⟩, st)
  | some (.obj fields) =>
      match objGet fields "frame" with
      | some (.str s) =>
          let r := analyzeFrameWithAI detect s st
          (.reply ⟨r.1.is_fake, r.1.confidence, r.1.alert_msg,
            some r.1.face_detected, some now⟩, r.2)
      | some j =>
          if jsonFalsy j then
            let r := analyzeFrameWithAI detect "" st
            (.reply ⟨r.1.is_fake, r.1.confidence, r.1.alert_msg,
              some r.1.face_detected, some now⟩, r.2)
          else
            -- len() of a non-string raises inside the analysis helper
            -- and is caught by its blanket handler
            (.reply ⟨false, 0, "Detection error: unsupported frame type",
              some false, some now⟩, st)
      | none =>
          let r := analyzeFrameWithAI detect "" st
          (.reply ⟨r.1.is_fake, r.1.confidence, r.1.alert_msg,
            some r.1.face_detected, some now⟩, r.2)
  | some _ => (.crash, st)

/-- A trivial classifier oracle for concrete evaluations. -/
def noopDetect : String → Unit → WsFaceResult × Unit :=
  fun _ u => (⟨false, 0, "", false⟩, u)

/-- C7 counterexample: the inbound text `"not-base64!!"` is undecodable
and gets exactly the reply `is_fake=true, confidence=0.99,
alert_msg="Bad payload"` — whose `timestamp` field is `none`: the claim
that the bad-payload reply comes *together with a timestamp field* is
false (the timestamp is only attached on the analysis path, line 218).  -/
theorem bad_payload_no_timestamp_cex :
    (wsStep noopDetect "2026-10-12T00:00:00+00:00" "not-base64!!" ()).1 =
      .reply ⟨true, 99 / 100, "Bad payload", none, none⟩ ∧
    WsVerdict.timestamp ⟨true, 99 / 100, "Bad payload", none, none⟩ = none :=
  ⟨rfl, rfl⟩

/-- C7 (amended): every inbound text frame that fails JSON decoding is
answered, to the sender only, with `is_fake=true, confidence=0.99,
alert_msg="Bad payload"` and no timestamp (and no face_detected) field,
and the detector state is untouched; `"not-base64!!"` in particular
yields exactly that verdict. -/
theorem bad_payload_reply {σ : Type} (detect : String → σ → WsFaceResult × σ)
    (now data : String) (st : σ) (h : jsonParse data = none) :
    wsStep detect now data st =
      (.reply ⟨true, 99 / 100, "Bad payload", none, none⟩, st) := by
  unfold wsStep
  rw [h]

/-- Witness for C7 at the spec's concrete payload. -/
theorem bad_payload_reply_witness :
    jsonParse "not-base64!!" = none ∧
    wsStep noopDetect "2026-10-12T00:00:00+00:00" "not-base64!!" () =
      (.reply ⟨true, 99 / 100, "Bad payload", none, none⟩, ()) :=
  ⟨rfl, bad_payload_reply noopDetect "2026-10-12T00:00:00+00:00" "not-base64!!" () rfl⟩

/-- C10: a valid-JSON object message whose `frame` is absent, `null`,
or a string shorter than 100 characters gets the fail-open verdict
`is_fake=false, confidence=0, "Invalid frame data", face_detected=false`
(with a timestamp), not the fail-closed bad-payload verdict, and the
detector state — hence every score history — is unchanged. -/
theorem short_frame_fail_open {σ : Type} (detect : String → σ → WsFaceResult × σ)
    (now data : String) (st : σ) (fields : List (String × Json))
    (hparse : jsonParse data = some (.obj fields))
    (hframe : objGet fields "frame" = none ∨ objGet fields "frame" = some .null ∨
      ∃ s, objGet fields "frame" = some (.str s) ∧ s.length < 100) :
    wsStep detect now data st =
      (.reply ⟨false, 0, "Invalid frame data", some false, some now⟩, st) := by
  unfold wsStep
  rw [hparse]
  dsimp only
  rcases hframe with h | h | ⟨s, h, hlen⟩
  · rw [h]
    simp [analyzeFrameWithAI]
  · rw [h]
    simp [jsonFalsy, analyzeFrameWithAI]
  · rw [h]
    by_cases hs : s = ""
    · simp [analyzeFrameWithAI, hs]
    · simp [analyzeFrameWithAI, hs, hlen]

/-- Witness for C10: a decodable frame message whose frame string is
three characters long. -/
theorem short_frame_fail_open_witness :
    wsStep noopDetect "2026-10-12T00:00:00+00:00" "\x7b\"frame\": \"abc\"\x7d" () =
      (.reply ⟨false, 0, "Invalid frame data", some false,
        some "2026-10-12T00:00:00+00:00"⟩, ()) :=
  short_frame_fail_open noopDetect "2026-10-12T00:00:00+00:00"
    "\x7b\"frame\": \"abc\"\x7d" () [("frame", .str "abc")] rfl
    (Or.inr (Or.inr ⟨"abc", rfl, by decide⟩))

end TeamBawllers
